import Mathlib

/-!
Verification of the tabular data analysis engine of
`src/examples/03_simple_analysis.py`.

The script is a linear pandas program; the spec documents the conceptual
engine (`TableAnalyzer`) whose operations the script invokes through the
external pandas collaborator.  The engine operations themselves are not
implemented inside the repository (the script is only their caller), so
each operation below is modelled from the spec, faithful to the spec's
wording, while the script's own control flow (column-existence guards,
the emptiness guard in section 6, the unguarded summary at the end) is
translated directly from the source lines.

Values are embedded exactly: numeric cells as `Int`, text cells as
`String`, a missing cell (pandas NaN) as `none`.  Means and medians are
exact rationals; sample standard deviation is represented by the sample
variance (its square), which determines it.
-/

namespace HoneyAnalysis

/-- A cell value of a loaded table: numeric or text.  -/
inductive Value where
  | num (n : Int)
  | str (s : String)
deriving DecidableEq, Repr

/-- A cell: `none` is a missing value (pandas `NaN`).  -/
abbrev Cell := Option Value

/-- A row: one cell per column, aligned by position.  -/
abbrev Row := List Cell

/-- Modelled from the spec (§3 Data model): a Table is an ordered sequence of
named columns and an ordered sequence of rows. -/
structure Table where
  columns : List String
  rows : List Row
deriving DecidableEq, Repr

/-- Position of a named column, `none` when the column is absent. -/
def colIdx (t : Table) (c : String) : Option Nat :=
  t.columns.findIdx? (· == c)

/-- The cell of row `r` in column position `i` (missing when the row is short). -/
def cellAt (i : Nat) (r : Row) : Cell :=
  (r.get? i).join

/-- The cells of column position `i`, one per row. -/
def colCells (t : Table) (i : Nat) : List Cell :=
  t.rows.map (cellAt i)

/-- The non-missing values of a list of cells. -/
def nonMissing (cells : List Cell) : List Value :=
  cells.filterMap id

/-- The numeric content of a cell, `none` for missing or text cells. -/
def numOf : Cell → Option Int
  | some (Value.num n) => some n
  | _ => none

/-- The non-missing numeric values of a list of cells. -/
def numsOf (cells : List Cell) : List Int :=
  cells.filterMap numOf

/-- Modelled from the spec (§4.1 Filter): a new Table with only the rows
satisfying the predicate, all columns kept, original row order preserved. -/
def filterRows (t : Table) (p : Row → Bool) : Table :=
  ⟨t.columns, t.rows.filter p⟩

/-- Errors of the analysis engine (spec §7). -/
inductive Err where
  | columnNotFound (c : String)
  | emptyColumn
deriving DecidableEq, Repr

/-- Order on values: numeric by integer order, text lexicographic; a numeric
value sorts before a text value (columns are homogeneous in the data). -/
def vle : Value → Value → Bool
  | Value.num m, Value.num n => decide (m ≤ n)
  | Value.str s, Value.str u => decide (s ≤ u)
  | Value.num _, Value.str _ => true
  | Value.str _, Value.num _ => false

theorem vle_total (x y : Value) : vle x y || vle y x := by
  cases x <;> cases y <;> simp [vle] <;> exact le_total _ _

theorem vle_trans {x y z : Value} (h₁ : vle x y) (h₂ : vle y z) : vle x z := by
  cases x <;> cases y <;> cases z <;>
    simp only [vle, decide_eq_true_eq, Bool.false_eq_true] at * <;>
    first
      | rfl
      | exact h₁
      | exact h₂
      | exact le_trans h₁ h₂

theorem vle_antisymm : ∀ {x y : Value}, vle x y → vle y x → x = y
  | Value.num _, Value.num _, h₁, h₂ => by
      simp only [vle, decide_eq_true_eq] at h₁ h₂
      exact congrArg Value.num (le_antisymm h₁ h₂)
  | Value.num _, Value.str _, _, h₂ => by simp [vle] at h₂
  | Value.str _, Value.num _, h₁, _ => by simp [vle] at h₁
  | Value.str _, Value.str _, h₁, h₂ => by
      simp only [vle, decide_eq_true_eq] at h₁ h₂
      exact congrArg Value.str (le_antisymm h₁ h₂)

/-- Comparison on cells for sorting: missing values sort last regardless of
direction (spec §4.1 SortBy); present values by `vle`, reversed when
descending. -/
def cellLe (asc : Bool) : Cell → Cell → Bool
  | none, none => true
  | none, some _ => false
  | some _, none => true
  | some x, some y => if asc then vle x y else vle y x

theorem cellLe_total (asc : Bool) (a b : Cell) : cellLe asc a b || cellLe asc b a := by
  cases a <;> cases b <;> cases asc <;> simp [cellLe] <;>
    (rename_i x y;
     rcases (by simpa using vle_total x y : vle x y = true ∨ vle y x = true)
       with h | h <;> simp [h])

theorem cellLe_trans (asc : Bool) {a b c : Cell} (h₁ : cellLe asc a b)
    (h₂ : cellLe asc b c) : cellLe asc a c := by
  cases a <;> cases b <;> cases c <;> cases asc <;>
    simp only [cellLe, if_true, if_false, Bool.false_eq_true] at * <;>
    first
      | rfl
      | exact h₁
      | exact h₂
      | exact vle_trans h₁ h₂
      | exact vle_trans h₂ h₁

/-- Row comparison by the cell in column position `i`. -/
def rowLe (asc : Bool) (i : Nat) (r₁ r₂ : Row) : Bool :=
  cellLe asc (cellAt i r₁) (cellAt i r₂)

theorem rowLe_total (asc : Bool) (i : Nat) (a b : Row) :
    rowLe asc i a b || rowLe asc i b a := cellLe_total asc _ _

theorem rowLe_trans (asc : Bool) (i : Nat) {a b c : Row} (h₁ : rowLe asc i a b)
    (h₂ : rowLe asc i b c) : rowLe asc i a c := cellLe_trans asc h₁ h₂

/-- The sorting relation on rows as a decidable proposition. -/
def rowRel (asc : Bool) (i : Nat) : Row → Row → Prop :=
  fun r₁ r₂ => rowLe asc i r₁ r₂ = true

instance (asc : Bool) (i : Nat) : DecidableRel (rowRel asc i) :=
  fun r₁ r₂ => instDecidableEqBool (rowLe asc i r₁ r₂) true

instance (asc : Bool) (i : Nat) : IsTotal Row (rowRel asc i) :=
  ⟨fun a b => by simpa [rowRel] using rowLe_total asc i a b⟩

instance (asc : Bool) (i : Nat) : IsTrans Row (rowRel asc i) :=
  ⟨fun _ _ _ h₁ h₂ => rowLe_trans asc i h₁ h₂⟩

/-- Modelled from the spec (§4.1 SortBy): stable sort of the rows by the
cell in column position `i`. -/
def sortRows (i : Nat) (asc : Bool) (rows : List Row) : List Row :=
  rows.insertionSort (rowRel asc i)

/-- Modelled from the spec (§4.1 SortBy): a new Table with rows reordered by
the given column, `ColumnNotFoundError` when the column is absent. -/
def sortBy (t : Table) (c : String) (asc : Bool) : Except Err Table :=
  match colIdx t c with
  | none => .error (.columnNotFound c)
  | some i => .ok ⟨t.columns, sortRows i asc t.rows⟩

/-- A stable sort leaves the subsequence of elements agreeing on any
predicate that forces the comparison untouched. -/
theorem insertionSort_filter_stable {α : Type} (r : α → α → Prop)
    [DecidableRel r] (p : α → Bool) (l : List α)
    (hp : ∀ a b, p a = true → p b = true → r a b) :
    (l.insertionSort r).filter p = l.filter p := by
  have h1 : (l.filter p).Pairwise r :=
    List.pairwise_of_forall_mem_list fun a ha b hb =>
      hp a b (List.of_mem_filter ha) (List.of_mem_filter hb)
  have h3 : (l.filter p).Sublist (l.insertionSort r) :=
    List.sublist_insertionSort h1 (List.filter_sublist l)
  have h5 : (l.filter p).Sublist ((l.insertionSort r).filter p) := by
    have := h3.filter p
    simpa [List.filter_filter] using this
  have h6 : ((l.insertionSort r).filter p).length = (l.filter p).length :=
    ((List.perm_insertionSort r l).filter p).length_eq
  exact (h5.eq_of_length h6.symm).symm

theorem vle_refl (x : Value) : vle x x := by
  cases x <;> simp [vle]

theorem cellLe_refl (asc : Bool) (a : Cell) : cellLe asc a a := by
  cases a <;> cases asc <;> simp [cellLe, vle_refl]

theorem cellLe_antisymm (asc : Bool) :
    ∀ {a b : Cell}, cellLe asc a b → cellLe asc b a → a = b
  | none, none, _, _ => rfl
  | none, some _, h₁, _ => by simp [cellLe] at h₁
  | some _, none, _, h₂ => by simp [cellLe] at h₂
  | some x, some y, h₁, h₂ => by
      cases asc <;> simp only [cellLe, if_true, if_false] at h₁ h₂
      · exact congrArg some (vle_antisymm h₂ h₁)
      · exact congrArg some (vle_antisymm h₁ h₂)

/-- When neither cell is missing, the descending comparison is the flipped
ascending comparison. -/
theorem cellLe_flip {a b : Cell} (ha : a ≠ none) (hb : b ≠ none) :
    cellLe false b a = cellLe true a b := by
  cases a <;> cases b <;> simp_all [cellLe]

theorem sortRows_perm (i : Nat) (asc : Bool) (rows : List Row) :
    (sortRows i asc rows).Perm rows :=
  List.perm_insertionSort _ rows

theorem sortRows_sorted (i : Nat) (asc : Bool) (rows : List Row) :
    (sortRows i asc rows).Pairwise (rowRel asc i) :=
  List.sorted_insertionSort _ rows

/-- Stability of `sortRows`: the subsequence of rows carrying any fixed key
value is unchanged by the sort. -/
theorem sortRows_stable (i : Nat) (asc : Bool) (rows : List Row) (v : Cell) :
    (sortRows i asc rows).filter (fun r => cellAt i r == v) =
      rows.filter (fun r => cellAt i r == v) := by
  apply insertionSort_filter_stable
  intro a b ha hb
  have ha' : cellAt i a = v := by simpa using ha
  have hb' : cellAt i b = v := by simpa using hb
  simp [rowRel, rowLe, ha', hb', cellLe_refl]

/-- Sorting descending after sorting ascending reverses the rows when the
key values are pairwise distinct and none is missing. -/
theorem sortRows_desc_reverse (i : Nat) (rows : List Row)
    (hnd : (rows.map (cellAt i)).Nodup)
    (hnm : ∀ r ∈ rows, cellAt i r ≠ none) :
    sortRows i false (sortRows i true rows) = (sortRows i true rows).reverse := by
  set A := sortRows i true rows with hA
  have hpermA : A.Perm rows := sortRows_perm i true rows
  have hndA : (A.map (cellAt i)).Nodup :=
    ((hpermA.map (cellAt i)).nodup_iff).mpr hnd
  have hneA : A.Pairwise (fun r₁ r₂ => cellAt i r₁ ≠ cellAt i r₂) :=
    List.pairwise_map.mp hndA
  have hsortedA : A.Pairwise (fun r₁ r₂ => rowLe true i r₁ r₂ = true) :=
    sortRows_sorted i true rows
  have hnmA : ∀ r ∈ A, cellAt i r ≠ none := fun r hr => hnm r (hpermA.mem_iff.mp hr)
  have hsortedD : (sortRows i false A).Pairwise
      (fun r₁ r₂ => rowLe false i r₁ r₂ = true ∧ cellAt i r₁ ≠ cellAt i r₂) := by
    have h₁ := sortRows_sorted i false A
    have h₂ : (sortRows i false A).Pairwise
        (fun r₁ r₂ => cellAt i r₁ ≠ cellAt i r₂) :=
      List.pairwise_map.mp
        ((((sortRows_perm i false A).map (cellAt i)).nodup_iff).mpr hndA)
    exact h₁.and h₂
  have hsortedR : A.reverse.Pairwise
      (fun r₁ r₂ => rowLe false i r₁ r₂ = true ∧ cellAt i r₁ ≠ cellAt i r₂) := by
    rw [List.pairwise_reverse]
    refine (hsortedA.and hneA).imp_of_mem ?_
    intro a b ha hb h
    refine ⟨?_, h.2.symm⟩
    have := cellLe_flip (hnmA a ha) (hnmA b hb)
    simpa [rowLe, this] using h.1
  have hperm : (sortRows i false A).Perm A.reverse :=
    (sortRows_perm i false A).trans A.reverse_perm.symm
  exact @List.eq_of_perm_of_sorted Row
    (fun r₁ r₂ => rowLe false i r₁ r₂ = true ∧ cellAt i r₁ ≠ cellAt i r₂)
    ⟨fun _ _ h₁ h₂ => absurd (cellLe_antisymm false h₁.1 h₂.1) h₁.2⟩
    _ _ hperm hsortedD hsortedR

/-- The distinct elements of a list, in order of first occurrence. -/
def firsts {α : Type} [DecidableEq α] : List α → List α
  | [] => []
  | a :: l => a :: (firsts l).filter (· != a)

theorem mem_firsts {α : Type} [DecidableEq α] {b : α} (l : List α) :
    b ∈ firsts l ↔ b ∈ l := by
  induction l with
  | nil => simp [firsts]
  | cons a l ih =>
      simp only [firsts, List.mem_cons, List.mem_filter, ih]
      by_cases hba : b = a <;> simp [hba]

theorem nodup_firsts {α : Type} [DecidableEq α] (l : List α) :
    (firsts l).Nodup := by
  induction l with
  | nil => simp [firsts]
  | cons a l ih =>
      refine List.nodup_cons.mpr ⟨?_, ih.filter _⟩
      simp [List.mem_filter]

theorem sum_map_filter_ne_of_nodup {α : Type} [DecidableEq α] (f : α → Nat) :
    ∀ ds : List α, ds.Nodup → ∀ a ∈ ds,
      (ds.map f).sum = f a + ((ds.filter (· != a)).map f).sum := by
  intro ds
  induction ds with
  | nil => intro _ a ha; simp at ha
  | cons d ds ih =>
      intro hnd a ha
      rcases List.mem_cons.mp ha with h | h
      · subst h
        have hads : a ∉ ds := (List.nodup_cons.mp hnd).1
        have hfds : ds.filter (· != a) = ds :=
          List.filter_eq_self.mpr (fun b hb => by
            simpa using fun hba : b = a => hads (hba ▸ hb))
        simp [List.filter_cons, hfds]
      · have hda : (d != a) = true := by
          simpa using fun hda : d = a => (List.nodup_cons.mp hnd).1 (hda ▸ h)
        simp only [List.map_cons, List.sum_cons, List.filter_cons, hda, if_true]
        rw [ih (List.nodup_cons.mp hnd).2 a h]
        omega

theorem firsts_count_sum {α : Type} [DecidableEq α] (l : List α) :
    ((firsts l).map (fun v => l.count v)).sum = l.length := by
  induction l with
  | nil => simp [firsts]
  | cons a l ih =>
      simp only [firsts, List.map_cons, List.sum_cons, List.count_cons_self,
        List.length_cons]
      have hmap : ((firsts l).filter (· != a)).map (fun v => (a :: l).count v)
          = ((firsts l).filter (· != a)).map (fun v => l.count v) := by
        apply List.map_congr_left
        intro v hv
        have hva : v ≠ a := by simpa using (List.mem_filter.mp hv).2
        rw [List.count_cons_of_ne hva]
      rw [hmap]
      by_cases hal : a ∈ l
      · have hsplit : ((firsts l).map (fun v => l.count v)).sum =
            l.count a + (((firsts l).filter (· != a)).map (fun v => l.count v)).sum :=
          sum_map_filter_ne_of_nodup (fun v => l.count v) (firsts l)
            (nodup_firsts l) a ((mem_firsts l).mpr hal)
        omega
      · have hfeq : (firsts l).filter (· != a) = firsts l :=
          List.filter_eq_self.mpr (fun b hb => by
            simpa using fun hba : b = a => hal (hba ▸ (mem_firsts l).mp hb))
        have hcz : l.count a = 0 := List.count_eq_zero.mpr hal
        rw [hfeq, ih, hcz]
        omega

/-- A pair sublist survives mapping by an injective function, and back. -/
theorem pair_sublist_map_iff {α β : Type} {f : α → β}
    (hinj : ∀ a b, f a = f b → a = b) {x y : α} {L : List α} :
    [f x, f y].Sublist (L.map f) ↔ [x, y].Sublist L := by
  constructor
  · intro hsub
    rcases List.sublist_map_iff.mp hsub with ⟨l', hl', heq⟩
    cases l' with
    | nil => simp at heq
    | cons a l'' =>
        cases l'' with
        | nil => simp at heq
        | cons b l''' =>
            cases l''' with
            | cons _ _ => simp at heq
            | nil =>
                simp only [List.map_cons, List.map_nil, List.cons.injEq,
                  and_true] at heq
                obtain ⟨ha, hb⟩ := heq
                have hax : a = x := (hinj x a ha).symm
                have hby : b = y := (hinj y b hb).symm
                subst hax
                subst hby
                exact hl'
  · intro hsub
    simpa using hsub.map f

/-- A pair sublist whose members satisfy the filter predicate is preserved by
filtering, and back. -/
theorem pair_sublist_filter_iff {α : Type} {p : α → Bool} {x y : α}
    (hx : p x = true) (hy : p y = true) {l : List α} :
    [x, y].Sublist (l.filter p) ↔ [x, y].Sublist l := by
  constructor
  · exact fun h => h.trans (List.filter_sublist l)
  · intro h
    have := h.filter p
    simpa [hx, hy] using this

/-- Two distinct elements occur in `firsts l` in the order of their first
occurrences in `l`. -/
theorem firsts_pair_sublist_iff {α : Type} [DecidableEq α] {x y : α}
    (hxy : x ≠ y) :
    ∀ l : List α, x ∈ l → y ∈ l →
      ([x, y].Sublist (firsts l) ↔ l.indexOf x < l.indexOf y) := by
  intro l
  induction l with
  | nil => intro hx; simp at hx
  | cons a l ih =>
      intro hxl hyl
      by_cases hxa : x = a
      · subst hxa
        have hyx : y ≠ x := Ne.symm hxy
        have hy' : y ∈ l := by
          rcases List.mem_cons.mp hyl with h' | h'
          · exact absurd h' hyx
          · exact h'
        rw [firsts]
        constructor
        · intro _
          rw [List.indexOf_cons_self, List.indexOf_cons_ne _ hxy]
          omega
        · intro _
          refine (List.singleton_sublist.mpr ?_).cons₂ x
          exact List.mem_filter.mpr
            ⟨(mem_firsts l).mpr hy', by simpa using hyx⟩
      · by_cases hya : y = a
        · subst hya
          rw [firsts]
          constructor
          · intro hsub
            rcases List.sublist_cons_iff.mp hsub with h' | ⟨r, hr, _⟩
            · have hyin : y ∈ (firsts l).filter (· != y) := h'.subset (by simp)
              have := (List.mem_filter.mp hyin).2
              simp at this
            · injection hr with h1 _
              exact absurd h1 hxy
          · intro hlt
            rw [List.indexOf_cons_self] at hlt
            omega
        · have hx' : x ∈ l := by
            rcases List.mem_cons.mp hxl with h' | h'
            · exact absurd h' hxa
            · exact h'
          have hy' : y ∈ l := by
            rcases List.mem_cons.mp hyl with h' | h'
            · exact absurd h' hya
            · exact h'
          rw [firsts]
          have hstep : [x, y].Sublist (a :: (firsts l).filter (· != a)) ↔
              [x, y].Sublist ((firsts l).filter (· != a)) := by
            constructor
            · intro hsub
              rcases List.sublist_cons_iff.mp hsub with h' | ⟨r, hr, _⟩
              · exact h'
              · injection hr with h1 _
                exact absurd h1 hxa
            · exact fun h' => h'.cons a
          have hfilter := @pair_sublist_filter_iff α (· != a) x y
            (by simpa using hxa) (by simpa using hya) (firsts l)
          rw [hstep, hfilter, ih hx' hy',
            List.indexOf_cons_ne _ (Ne.symm hxa),
            List.indexOf_cons_ne _ (Ne.symm hya)]
          omega

/-- The descending-count ordering used by `ValueCounts`. -/
def countGe : Value × Nat → Value × Nat → Prop := fun p q => q.2 ≤ p.2

instance : DecidableRel countGe := fun p q => Nat.decLe q.2 p.2

instance : IsTotal (Value × Nat) countGe := ⟨fun a b => Nat.le_total b.2 a.2⟩

instance : IsTrans (Value × Nat) countGe :=
  ⟨fun _ _ _ h₁ h₂ => le_trans h₂ h₁⟩

/-- Modelled from the spec (§4.1 ValueCounts): the occurrences of each
distinct non-missing value of the column, in descending order of count with
ties in first-occurrence order; `ColumnNotFoundError` when the column is
absent. -/
def valueCounts (t : Table) (c : String) : Except Err (List (Value × Nat)) :=
  match colIdx t c with
  | none => .error (.columnNotFound c)
  | some i =>
    let vs := nonMissing (colCells t i)
    .ok (((firsts vs).map (fun v => (v, vs.count v))).insertionSort countGe)

theorem sortedCounts_mem (vs : List Value) (v : Value) (n : Nat) :
    ((v, n) ∈ ((firsts vs).map (fun u => (u, vs.count u))).insertionSort countGe)
      ↔ (v ∈ vs ∧ n = vs.count v) := by
  rw [List.mem_insertionSort, List.mem_map]
  constructor
  · rintro ⟨u, hu, heq⟩
    obtain ⟨h1, h2⟩ := Prod.mk.injEq .. ▸ heq
    subst h1
    exact ⟨(mem_firsts vs).mp hu, h2.symm⟩
  · rintro ⟨hv, hn⟩
    exact ⟨v, (mem_firsts vs).mpr hv, by rw [hn]⟩

theorem sortedCounts_sorted (vs : List Value) :
    (((firsts vs).map (fun u => (u, vs.count u))).insertionSort
      countGe).Pairwise (fun p q => q.2 ≤ p.2) :=
  List.sorted_insertionSort countGe _

theorem sortedCounts_sum (vs : List Value) :
    ((((firsts vs).map (fun u => (u, vs.count u))).insertionSort
      countGe).map Prod.snd).sum = vs.length := by
  have hperm := List.perm_insertionSort countGe
    ((firsts vs).map (fun u => (u, vs.count u)))
  rw [(hperm.map Prod.snd).sum_eq, List.map_map]
  simpa using firsts_count_sum vs

theorem sortedCounts_ties (vs : List Value) (v₁ v₂ : Value) (hne : v₁ ≠ v₂)
    (h₁ : v₁ ∈ vs) (h₂ : v₂ ∈ vs) (hcnt : vs.count v₁ = vs.count v₂) :
    ([(v₁, vs.count v₁), (v₂, vs.count v₂)].Sublist
      (((firsts vs).map (fun u => (u, vs.count u))).insertionSort countGe) ↔
      vs.indexOf v₁ < vs.indexOf v₂) := by
  have hstable : ((((firsts vs).map (fun u => (u, vs.count u))).insertionSort
        countGe).filter (fun p => p.2 == vs.count v₁)) =
      (((firsts vs).map (fun u => (u, vs.count u))).filter
        (fun p => p.2 == vs.count v₁)) := by
    apply insertionSort_filter_stable
    intro a b ha hb
    have ha' : a.2 = vs.count v₁ := by simpa using ha
    have hb' : b.2 = vs.count v₁ := by simpa using hb
    simp [countGe, ha', hb']
  have hiff1 := @pair_sublist_filter_iff (Value × Nat)
    (fun p => p.2 == vs.count v₁) (v₁, vs.count v₁) (v₂, vs.count v₂)
    (by simp) (by simp [hcnt])
    (((firsts vs).map (fun u => (u, vs.count u))).insertionSort countGe)
  have hiff2 := @pair_sublist_filter_iff (Value × Nat)
    (fun p => p.2 == vs.count v₁) (v₁, vs.count v₁) (v₂, vs.count v₂)
    (by simp) (by simp [hcnt])
    ((firsts vs).map (fun u => (u, vs.count u)))
  rw [← hiff1, hstable, hiff2]
  have hinj : ∀ a b : Value, (fun u => (u, vs.count u)) a =
      (fun u => (u, vs.count u)) b → a = b := by
    intro a b hab
    simpa using congrArg Prod.fst hab
  have hpair : ([(v₁, vs.count v₁), (v₂, vs.count v₂)] : List (Value × Nat)) =
      [(fun u => (u, vs.count u)) v₁, (fun u => (u, vs.count u)) v₂] := rfl
  rw [hpair, pair_sublist_map_iff hinj, firsts_pair_sublist_iff hne vs h₁ h₂]

/-- Claim C5: for every Table and column, `ValueCounts` lists exactly the
distinct non-missing values with their occurrence counts (so missing values
are excluded), in descending order of count, ties resolved by the order of
first occurrence in the column, and the counts sum to the number of
non-missing values. -/
theorem valueCounts_spec (t : Table) (c : String) (i : Nat)
    (hc : colIdx t c = some i) :
    ∃ m : List (Value × Nat),
      valueCounts t c = Except.ok m ∧
      (∀ v n, ((v, n) ∈ m) ↔ (v ∈ nonMissing (colCells t i) ∧
          n = (nonMissing (colCells t i)).count v)) ∧
      m.Pairwise (fun p q => q.2 ≤ p.2) ∧
      (∀ v₁ v₂ : Value, v₁ ≠ v₂ →
        v₁ ∈ nonMissing (colCells t i) → v₂ ∈ nonMissing (colCells t i) →
        (nonMissing (colCells t i)).count v₁ =
          (nonMissing (colCells t i)).count v₂ →
        ([(v₁, (nonMissing (colCells t i)).count v₁),
          (v₂, (nonMissing (colCells t i)).count v₂)].Sublist m ↔
          (nonMissing (colCells t i)).indexOf v₁ <
            (nonMissing (colCells t i)).indexOf v₂)) ∧
      (m.map Prod.snd).sum = (nonMissing (colCells t i)).length := by
  refine ⟨_, ?_, fun v n => sortedCounts_mem _ v n, sortedCounts_sorted _,
    fun v₁ v₂ hne h₁ h₂ hcnt => sortedCounts_ties _ v₁ v₂ hne h₁ h₂ hcnt,
    sortedCounts_sum _⟩
  simp [valueCounts, hc]

/-- The least element of a list of integers, `none` when empty. -/
def listMin : List Int → Option Int
  | [] => none
  | a :: l => some (match listMin l with
      | none => a
      | some b => min a b)

/-- The greatest element of a list of integers, `none` when empty. -/
def listMax : List Int → Option Int
  | [] => none
  | a :: l => some (match listMax l with
      | none => a
      | some b => max a b)

theorem listMin_spec : ∀ l : List Int, l ≠ [] →
    ∃ m, listMin l = some m ∧ m ∈ l ∧ ∀ b ∈ l, m ≤ b := by
  intro l
  induction l with
  | nil => intro h; exact absurd rfl h
  | cons a l ih =>
      intro _
      rcases l with _ | ⟨b, l'⟩
      · exact ⟨a, rfl, by simp, by simp⟩
      · obtain ⟨m, hm, hmem, hle⟩ := ih (by simp)
        refine ⟨min a m, by rw [listMin, hm], ?_, ?_⟩
        · rcases min_choice a m with h | h <;> rw [h]
          · simp
          · exact List.mem_cons_of_mem a hmem
        · intro x hx
          rcases List.mem_cons.mp hx with h | h
          · exact le_of_le_of_eq (min_le_left a m) h.symm
          · exact le_trans (min_le_right a m) (hle x h)

theorem listMax_spec : ∀ l : List Int, l ≠ [] →
    ∃ m, listMax l = some m ∧ m ∈ l ∧ ∀ b ∈ l, b ≤ m := by
  intro l
  induction l with
  | nil => intro h; exact absurd rfl h
  | cons a l ih =>
      intro _
      rcases l with _ | ⟨b, l'⟩
      · exact ⟨a, rfl, by simp, by simp⟩
      · obtain ⟨m, hm, hmem, hle⟩ := ih (by simp)
        refine ⟨max a m, by rw [listMax, hm], ?_, ?_⟩
        · rcases max_choice a m with h | h <;> rw [h]
          · simp
          · exact List.mem_cons_of_mem a hmem
        · intro x hx
          rcases List.mem_cons.mp hx with h | h
          · exact le_of_eq_of_le h (le_max_left a m)
          · exact le_trans (hle x h) (le_max_right a m)

/-- Modelled from the spec (§4.1 DescribeColumn): the values of maximal
frequency, in first-occurrence order. -/
def modes (l : List Int) : List Int :=
  (firsts l).filter (fun v => (firsts l).all (fun w => decide (l.count w ≤ l.count v)))

/-- Modelled from the spec (§4.1 DescribeColumn): the mode, the smallest
value among the most frequent. -/
def modeOf (l : List Int) : Option Int :=
  listMin (modes l)

theorem modeOf_spec (l : List Int) (h : l ≠ []) :
    ∃ m, modeOf l = some m ∧ m ∈ l ∧
      (∀ w ∈ l, l.count w ≤ l.count m) ∧
      (∀ w ∈ l, l.count w = l.count m → m ≤ w) := by
  have haF : ∀ x ∈ l, x ∈ firsts l := fun x hx => (mem_firsts l).mpr hx
  have hFne : firsts l ≠ [] := by
    rcases l with _ | ⟨a, l'⟩
    · exact absurd rfl h
    · exact List.ne_nil_of_mem (haF a (by simp))
  cases harg : List.argmax (fun v => l.count v) (firsts l) with
  | none => exact absurd (List.argmax_eq_none.mp harg) hFne
  | some m₀ =>
      have hm₀mem : m₀ ∈ List.argmax (fun v => l.count v) (firsts l) := by
        rw [harg]; rfl
      have hm₀F : m₀ ∈ firsts l := List.argmax_mem hm₀mem
      have hmax : ∀ w ∈ firsts l, l.count w ≤ l.count m₀ := fun w hw =>
        List.le_of_mem_argmax hw hm₀mem
      have hm₀modes : m₀ ∈ modes l := by
        refine List.mem_filter.mpr ⟨hm₀F, ?_⟩
        rw [List.all_eq_true]
        intro w hw
        exact decide_eq_true (hmax w hw)
      obtain ⟨m, hm, hmmem, hmle⟩ :=
        listMin_spec (modes l) (List.ne_nil_of_mem hm₀modes)
      have hmF : m ∈ firsts l := (List.mem_filter.mp hmmem).1
      have hmpred : ∀ w ∈ firsts l, l.count w ≤ l.count m := by
        have hall := (List.mem_filter.mp hmmem).2
        rw [List.all_eq_true] at hall
        intro w hw
        simpa using hall w hw
      refine ⟨m, hm, (mem_firsts l).mp hmF,
        fun w hw => hmpred w (haF w hw), ?_⟩
      intro w hw hcnt
      have hwmodes : w ∈ modes l := by
        refine List.mem_filter.mpr ⟨haF w hw, ?_⟩
        rw [List.all_eq_true]
        intro u hu
        exact decide_eq_true (hcnt ▸ hmpred u hu)
      exact hmle w hwmodes

/-- The statistics record of `DescribeColumn` (spec §4.1).  The sample
standard deviation is recorded by the sample variance `svar`, its square,
which determines it (a square root is not a rational-valued operation). -/
structure Stats where
  mean : Rat
  median : Rat
  mode : Option Int
  svar : Option Rat
  vmin : Int
  vmax : Int
deriving DecidableEq, Repr

/-- Arithmetic mean as an exact rational. -/
def meanOf (l : List Int) : Rat :=
  (l.sum : Rat) / (l.length : Rat)

/-- Median: middle of the sorted values, average of the two middle values
for an even count. -/
def medianOf (l : List Int) : Rat :=
  let s := l.insertionSort (· ≤ ·)
  if l.length % 2 = 1 then ((s.getD (l.length / 2) 0 : Int) : Rat)
  else (((s.getD (l.length / 2 - 1) 0 + s.getD (l.length / 2) 0 : Int) : Rat)) / 2

/-- Sample variance (N−1 denominator), `none` when fewer than two values. -/
def svarOf (l : List Int) : Option Rat :=
  if 2 ≤ l.length then
    some (((l.map (fun x => ((x : Rat) - meanOf l) ^ 2)).sum) / ((l.length : Rat) - 1))
  else none

/-- Modelled from the spec (§4.1 DescribeColumn): statistics over the
non-missing values of a numeric column; `ColumnNotFoundError` when the
column is absent, `EmptyColumnError` when it has no non-missing value. -/
def describeColumn (t : Table) (c : String) : Except Err Stats :=
  match colIdx t c with
  | none => .error (.columnNotFound c)
  | some i =>
    let vs := numsOf (colCells t i)
    if vs.isEmpty then .error .emptyColumn
    else
      .ok { mean := meanOf vs
            median := medianOf vs
            mode := modeOf vs
            svar := svarOf vs
            vmin := (listMin vs).getD 0
            vmax := (listMax vs).getD 0 }

/-- Modelled from the spec (§4.1 ArgExtreme): the first row carrying the
extreme non-missing value of the column; `ColumnNotFoundError` when the
column is absent, `EmptyColumnError` when all values are missing or the
table has no rows. -/
def argExtreme (t : Table) (c : String) (isMax : Bool) : Except Err Row :=
  match colIdx t c with
  | none => .error (.columnNotFound c)
  | some i =>
    match (if isMax then listMax (numsOf (colCells t i))
           else listMin (numsOf (colCells t i))) with
    | none => .error .emptyColumn
    | some best =>
      match t.rows.find? (fun r => numOf (cellAt i r) == some best) with
      | none => .error .emptyColumn
      | some r => .ok r

/-- Modelled from the spec (§4.1 AnswerByFilterThenExtreme) and lines
139-152 of the script: Filter, then ArgExtreme, with `none` as the defined
"no data" result when the filtered Table has no rows (the script's
`if len(year_2012) > 0` guard). -/
def answerByFilterThenExtreme (t : Table) (p : Row → Bool) (c : String)
    (isMax : Bool) : Option (Except Err Row) :=
  let f := filterRows t p
  if f.rows.isEmpty then none
  else some (argExtreme f c isMax)

/-- The rows of the group keyed `k` (group column at position `gi`).  A row
whose group cell is missing satisfies no group's test, mirroring the
`groupby` of the source which drops missing keys. -/
def groupRows (t : Table) (gi : Nat) (k : Value) : List Row :=
  t.rows.filter (fun r => cellAt gi r == some k)

/-- Per-group sums of the non-missing numeric values of the column at `vi`,
grouped by the distinct non-missing keys of the column at `gi` in
first-occurrence order. -/
def groupSumsAt (t : Table) (gi vi : Nat) : List (Value × Int) :=
  (firsts (nonMissing (colCells t gi))).map
    (fun k => (k, (numsOf ((groupRows t gi k).map (cellAt vi))).sum))

/-- Per-group means, as `groupSumsAt`. -/
def groupMeansAt (t : Table) (gi vi : Nat) : List (Value × Rat) :=
  (firsts (nonMissing (colCells t gi))).map
    (fun k => (k, meanOf (numsOf ((groupRows t gi k).map (cellAt vi)))))

/-- Modelled from the spec (§4.1 GroupAggregate) with the sum aggregator,
following the source's `groupby` invocation: rows whose group key is
missing are omitted (pandas `groupby` default). -/
def groupSums (t : Table) (g v : String) : Except Err (List (Value × Int)) :=
  match colIdx t g, colIdx t v with
  | none, _ => .error (.columnNotFound g)
  | _, none => .error (.columnNotFound v)
  | some gi, some vi => .ok (groupSumsAt t gi vi)

/-- Errors raised by the underlying tabular library when the script reads
data without an existence guard (a `KeyError` for a missing label, a
`ValueError` for an extreme over no values) — distinct from the engine's
`ColumnNotFoundError`/`EmptyColumnError` discipline. -/
inductive PdErr where
  | keyError (c : String)
  | valueError
deriving DecidableEq, Repr

/-- `data[c]` of the script: unguarded column access. -/
def seriesOf (t : Table) (c : String) : Except PdErr (List Cell) :=
  match colIdx t c with
  | none => .error (.keyError c)
  | some i => .ok (colCells t i)

/-- `Series.idxmin()`: position of the first minimal non-missing value,
`ValueError` when there is none. -/
def idxminCells (cells : List Cell) : Except PdErr Nat :=
  match listMin (numsOf cells) with
  | none => .error .valueError
  | some m =>
    match cells.findIdx? (fun c => numOf c == some m) with
    | none => .error .valueError
    | some i => .ok i

/-- `data.loc[idx, c]` of the script: unguarded lookup. -/
def locAt (t : Table) (idx : Nat) (c : String) : Except PdErr Cell :=
  match colIdx t c with
  | none => .error (.keyError c)
  | some i =>
    match t.rows.get? idx with
    | none => .error (.keyError c)
    | some r => .ok (cellAt i r)

/-- `data.groupby(g)[v].sum()` of the script: unguarded grouping. -/
def groupbySum (t : Table) (g v : String) : Except PdErr (List (Value × Int)) :=
  match colIdx t g, colIdx t v with
  | none, _ => .error (.keyError g)
  | _, none => .error (.keyError v)
  | some gi, some vi => .ok (groupSumsAt t gi vi)

/-- Lines 172-185 of the script: the final summary (lowest production, then
total production by year), translated statement by statement.  Unlike
sections 1-6 it applies no column-existence guard, so a missing column
surfaces as a library `KeyError`. -/
def summarySection (t : Table) :
    Except PdErr (Cell × Cell × List (Value × Int)) := do
  let tp ← seriesOf t "totalprod"
  let idx ← idxminCells tp
  let st ← locAt t idx "state"
  let amt ← locAt t idx "totalprod"
  let ann ← groupbySum t "year" "totalprod"
  return (st, amt, ann)

/-- One printed result of the script. -/
inductive Output where
  | stats (r : Except Err Stats)
  | filtered (r : Table)
  | highProduction (r : Table)
  | grouped (r : List (Value × Rat))
  | sorted (r : Except Err Table)
  | counts (r : Except Err (List (Value × Nat)))
  | answer (r : Option (Except Err Row))
  | summary (r : Except PdErr (Cell × Cell × List (Value × Int)))
deriving Repr

/-- The script's run-time state: the loaded dataset and the report printed
so far.  The source never rebinds `data` and calls no in-place operation. -/
structure ScriptState where
  data : Table
  outputs : List Output

/-- The mask `data[c] == num n` (a missing cell compares false). -/
def eqNumPred (t : Table) (c : String) (n : Int) : Row → Bool :=
  fun r => match colIdx t c with
    | none => false
    | some i => cellAt i r == some (Value.num n)

/-- The mask `data[c] > n` (a missing cell compares false). -/
def gtNumPred (t : Table) (c : String) (n : Int) : Row → Bool :=
  fun r => match colIdx t c with
    | none => false
    | some i => match numOf (cellAt i r) with
      | none => false
      | some m => decide (n < m)

/-- Section 1 of the script (lines 44-55): statistics of "totalprod",
guarded by column existence. -/
def runSection1 (s : ScriptState) : ScriptState :=
  if "totalprod" ∈ s.data.columns then
    { s with outputs := s.outputs ++ [Output.stats (describeColumn s.data "totalprod")] }
  else s

/-- Section 2 of the script, first part (lines 61-70): the year-2000
filter, guarded. -/
def runSection2a (s : ScriptState) : ScriptState :=
  if "year" ∈ s.data.columns then
    { s with outputs := s.outputs ++
        [Output.filtered (filterRows s.data (eqNumPred s.data "year" 2000))] }
  else s

/-- Section 2 of the script, second part (lines 73-79): the two-condition
high-production filter, guarded. -/
def runSection2b (s : ScriptState) : ScriptState :=
  if "totalprod" ∈ s.data.columns ∧ "year" ∈ s.data.columns then
    { s with outputs := s.outputs ++
        [Output.highProduction (filterRows s.data
          (fun r => gtNumPred s.data "totalprod" 10000000 r &&
                    gtNumPred s.data "year" 2010 r))] }
  else s

/-- Section 2 of the script (lines 61-79). -/
def runSection2 (s : ScriptState) : ScriptState :=
  runSection2b (runSection2a s)

/-- Section 3 of the script (lines 86-102): mean production per state,
guarded. -/
def runSection3 (s : ScriptState) : ScriptState :=
  if "state" ∈ s.data.columns ∧ "totalprod" ∈ s.data.columns then
    match colIdx s.data "state", colIdx s.data "totalprod" with
    | some gi, some vi =>
        { s with outputs := s.outputs ++ [Output.grouped (groupMeansAt s.data gi vi)] }
    | _, _ => s
  else s

/-- Section 4 of the script (lines 107-120): sort by "totalprod"
descending, guarded. -/
def runSection4 (s : ScriptState) : ScriptState :=
  if "totalprod" ∈ s.data.columns then
    { s with outputs := s.outputs ++ [Output.sorted (sortBy s.data "totalprod" false)] }
  else s

/-- Section 5 of the script (lines 125-133): value counts of "state",
guarded. -/
def runSection5 (s : ScriptState) : ScriptState :=
  if "state" ∈ s.data.columns then
    { s with outputs := s.outputs ++ [Output.counts (valueCounts s.data "state")] }
  else s

/-- Section 6 of the script (lines 139-152): the 2012 question, guarded by
column existence and by the emptiness check on the filtered table. -/
def runSection6 (s : ScriptState) : ScriptState :=
  if "state" ∈ s.data.columns ∧ "year" ∈ s.data.columns ∧
      "totalprod" ∈ s.data.columns then
    { s with outputs := s.outputs ++
        [Output.answer (answerByFilterThenExtreme s.data
          (eqNumPred s.data "year" 2012) "totalprod" true)] }
  else s

/-- The final summary of the script (lines 172-185), unguarded. -/
def runSummary (s : ScriptState) : ScriptState :=
  { s with outputs := s.outputs ++ [Output.summary (summarySection s.data)] }

/-- The whole script: load, run each section against the same dataset,
print. -/
def runScript (t : Table) : ScriptState :=
  runSummary (runSection6 (runSection5 (runSection4 (runSection3
    (runSection2 (runSection1 ⟨t, []⟩))))))

/-- The three-row sample table of spec §8. -/
def sampleT : Table :=
  ⟨["state", "year", "totalprod"],
   [[some (Value.str "TX"), some (Value.num 2000), some (Value.num 100)],
    [some (Value.str "TX"), some (Value.num 2012), some (Value.num 300)],
    [some (Value.str "CA"), some (Value.num 2012), some (Value.num 200)]]⟩

/-- A one-row table whose group key is missing while its value is not. -/
def tMissingKey : Table :=
  ⟨["g", "v"], [[none, some (Value.num 5)]]⟩

/-- A table without the "totalprod" column the summary assumes. -/
def tNoProd : Table :=
  ⟨["foo"], [[some (Value.num 1)]]⟩

/-- Claim C1: for every Table `t` and predicate `p`, `Filter` keeps all
columns, returns a sublist of the rows (hence a subset in the same relative
order), every returned row satisfies `p`, and when the predicate is a
conjunction `p && q` every returned row satisfies both conjuncts. -/
theorem filterRows_spec (t : Table) (p q : Row → Bool) :
    (filterRows t p).columns = t.columns ∧
    (filterRows t p).rows.Sublist t.rows ∧
    (∀ r, r ∈ (filterRows t p).rows → p r = true) ∧
    (∀ r, r ∈ (filterRows t (fun r => p r && q r)).rows →
      p r = true ∧ q r = true) := by
  refine ⟨rfl, List.filter_sublist t.rows, ?_, ?_⟩
  · intro r hr
    exact List.of_mem_filter hr
  · intro r hr
    have h := List.of_mem_filter hr
    simpa using h

/-- Concrete instantiation of `filterRows_spec` on the two-column sample
table, with the year-equality predicate of the source. -/
theorem filterRows_spec_witness :
    (filterRows ⟨["year", "totalprod"],
        [[some (Value.num 2000), some (Value.num 100)],
         [some (Value.num 2012), some (Value.num 300)]]⟩
      (fun r => cellAt 0 r == some (Value.num 2012))).columns
        = ["year", "totalprod"] ∧
    (filterRows ⟨["year", "totalprod"],
        [[some (Value.num 2000), some (Value.num 100)],
         [some (Value.num 2012), some (Value.num 300)]]⟩
      (fun r => cellAt 0 r == some (Value.num 2012))).rows.Sublist
        [[some (Value.num 2000), some (Value.num 100)],
         [some (Value.num 2012), some (Value.num 300)]] ∧
    (∀ r, r ∈ (filterRows ⟨["year", "totalprod"],
        [[some (Value.num 2000), some (Value.num 100)],
         [some (Value.num 2012), some (Value.num 300)]]⟩
      (fun r => cellAt 0 r == some (Value.num 2012))).rows →
        (cellAt 0 r == some (Value.num 2012)) = true) ∧
    (∀ r, r ∈ (filterRows ⟨["year", "totalprod"],
        [[some (Value.num 2000), some (Value.num 100)],
         [some (Value.num 2012), some (Value.num 300)]]⟩
      (fun r => (cellAt 0 r == some (Value.num 2012)) &&
                (cellAt 1 r == some (Value.num 300)))).rows →
        (cellAt 0 r == some (Value.num 2012)) = true ∧
        (cellAt 1 r == some (Value.num 300)) = true) :=
  filterRows_spec _ _ _

/-- Claim C3: `SortBy` is a stable sort in both directions — the subsequence
of rows carrying any fixed value in the sort column is exactly as in the
input — and, as a consequence, sorting ascending and then descending
reverses the rows when the column's values are pairwise distinct and none
is missing (ties and missing values excepted, exactly as the tie/missing
rules dictate). -/
theorem sortBy_stable_spec (t : Table) (c : String) (i : Nat)
    (hc : colIdx t c = some i) :
    (∀ asc : Bool, ∃ u : Table, sortBy t c asc = Except.ok u ∧
      u.columns = t.columns ∧
      u.rows.Pairwise (rowRel asc i) ∧
      ∀ v : Cell, u.rows.filter (fun r => cellAt i r == v) =
        t.rows.filter (fun r => cellAt i r == v)) ∧
    ((t.rows.map (cellAt i)).Nodup → (∀ r ∈ t.rows, cellAt i r ≠ none) →
      ∃ u d : Table, sortBy t c true = Except.ok u ∧
        sortBy u c false = Except.ok d ∧ d.rows = u.rows.reverse) := by
  constructor
  · intro asc
    refine ⟨⟨t.columns, sortRows i asc t.rows⟩, ?_, rfl,
      sortRows_sorted i asc t.rows, fun v => sortRows_stable i asc t.rows v⟩
    simp [sortBy, hc]
  · intro hnd hnm
    refine ⟨⟨t.columns, sortRows i true t.rows⟩,
      ⟨t.columns, sortRows i false (sortRows i true t.rows)⟩, ?_, ?_,
      sortRows_desc_reverse i t.rows hnd hnm⟩
    · simp [sortBy, hc]
    · have hc' : colIdx ⟨t.columns, sortRows i true t.rows⟩ c = some i := hc
      simp [sortBy, hc']

/-- Concrete instantiation of `sortBy_stable_spec` on the sample table,
keyed by the "totalprod" column. -/
theorem sortBy_stable_spec_witness :
    colIdx sampleT "totalprod" = some 2 ∧
    ((∀ asc : Bool, ∃ u : Table, sortBy sampleT "totalprod" asc = Except.ok u ∧
      u.columns = sampleT.columns ∧
      u.rows.Pairwise (rowRel asc 2) ∧
      ∀ v : Cell, u.rows.filter (fun r => cellAt 2 r == v) =
        sampleT.rows.filter (fun r => cellAt 2 r == v)) ∧
    ((sampleT.rows.map (cellAt 2)).Nodup →
      (∀ r ∈ sampleT.rows, cellAt 2 r ≠ none) →
      ∃ u d : Table, sortBy sampleT "totalprod" true = Except.ok u ∧
        sortBy u "totalprod" false = Except.ok d ∧ d.rows = u.rows.reverse)) :=
  ⟨by decide, sortBy_stable_spec sampleT "totalprod" 2 (by decide)⟩

/-- Claim C2: an aggregate (`DescribeColumn`) or extreme (`ArgExtreme`)
over a column with zero non-missing values — in particular over a table
with zero rows — fails with `EmptyColumnError`; it never silently returns
a (NaN) result. -/
theorem empty_column_errors (t : Table) (c : String) (i : Nat)
    (hc : colIdx t c = some i)
    (hempty : numsOf (colCells t i) = []) :
    describeColumn t c = Except.error Err.emptyColumn ∧
    (∀ isMax : Bool, argExtreme t c isMax = Except.error Err.emptyColumn) ∧
    (t.rows = [] → numsOf (colCells t i) = []) := by
  refine ⟨?_, ?_, fun h => by simp [colCells, numsOf, h]⟩
  · simp [describeColumn, hc, hempty]
  · intro isMax
    cases isMax <;> simp [argExtreme, hc, hempty, listMin, listMax]

/-- Concrete instantiation of `empty_column_errors` on a zero-row table. -/
theorem empty_column_errors_witness :
    (colIdx ⟨["c"], ([] : List Row)⟩ "c" = some 0 ∧
      numsOf (colCells ⟨["c"], ([] : List Row)⟩ 0) = []) ∧
    (describeColumn ⟨["c"], ([] : List Row)⟩ "c" =
        Except.error Err.emptyColumn ∧
      (∀ isMax : Bool, argExtreme ⟨["c"], ([] : List Row)⟩ "c" isMax =
        Except.error Err.emptyColumn) ∧
      (Table.rows ⟨["c"], ([] : List Row)⟩ = [] →
        numsOf (colCells ⟨["c"], ([] : List Row)⟩ 0) = [])) :=
  ⟨⟨by decide, rfl⟩, empty_column_errors ⟨["c"], []⟩ "c" 0 (by decide) rfl⟩

/-- Claim C6: for a numeric column with at least one non-missing value, the
mode of `DescribeColumn` is a most frequent value and, among the most
frequent, the smallest. -/
theorem describeColumn_mode_spec (t : Table) (c : String) (i : Nat)
    (hc : colIdx t c = some i)
    (hne : numsOf (colCells t i) ≠ []) :
    ∃ st m, describeColumn t c = Except.ok st ∧ st.mode = some m ∧
      m ∈ numsOf (colCells t i) ∧
      (∀ w ∈ numsOf (colCells t i),
        (numsOf (colCells t i)).count w ≤ (numsOf (colCells t i)).count m) ∧
      (∀ w ∈ numsOf (colCells t i),
        (numsOf (colCells t i)).count w = (numsOf (colCells t i)).count m →
          m ≤ w) := by
  obtain ⟨m, hm, hmem, hmax, htie⟩ := modeOf_spec _ hne
  have hEmpty : (numsOf (colCells t i)).isEmpty = false := by
    cases hvs : numsOf (colCells t i)
    · exact absurd hvs hne
    · rfl
  refine ⟨⟨meanOf (numsOf (colCells t i)), medianOf (numsOf (colCells t i)),
      modeOf (numsOf (colCells t i)), svarOf (numsOf (colCells t i)),
      (listMin (numsOf (colCells t i))).getD 0,
      (listMax (numsOf (colCells t i))).getD 0⟩, m, ?_, hm, hmem, hmax, htie⟩
  simp [describeColumn, hc, hEmpty]

/-- Concrete instantiation of `describeColumn_mode_spec` on the sample
table's "totalprod" column. -/
theorem describeColumn_mode_spec_witness :
    (colIdx sampleT "totalprod" = some 2 ∧ numsOf (colCells sampleT 2) ≠ []) ∧
    (∃ st m, describeColumn sampleT "totalprod" = Except.ok st ∧
      st.mode = some m ∧
      m ∈ numsOf (colCells sampleT 2) ∧
      (∀ w ∈ numsOf (colCells sampleT 2),
        (numsOf (colCells sampleT 2)).count w ≤
          (numsOf (colCells sampleT 2)).count m) ∧
      (∀ w ∈ numsOf (colCells sampleT 2),
        (numsOf (colCells sampleT 2)).count w =
          (numsOf (colCells sampleT 2)).count m → m ≤ w)) :=
  ⟨⟨by decide, by decide⟩,
    describeColumn_mode_spec sampleT "totalprod" 2 (by decide) (by decide)⟩

/-- Claim C8: `AnswerByFilterThenExtreme` returns the defined "no data"
result (`none`) when the filtered Table has zero rows; it raises no error
in that case. -/
theorem answer_no_data (t : Table) (p : Row → Bool) (c : String)
    (isMax : Bool) (h : (filterRows t p).rows = []) :
    answerByFilterThenExtreme t p c isMax = none := by
  simp [answerByFilterThenExtreme, h]

/-- Concrete instantiation of `answer_no_data` with an unsatisfiable
filter on the sample table. -/
theorem answer_no_data_witness :
    (filterRows sampleT (fun _ => false)).rows = [] ∧
    answerByFilterThenExtreme sampleT (fun _ => false) "totalprod" true
      = none :=
  ⟨rfl, answer_no_data sampleT (fun _ => false) "totalprod" true rfl⟩

theorem sum_filterMap_getD {α : Type} (f : α → Option Int) :
    ∀ l : List α, (l.filterMap f).sum = (l.map (fun x => (f x).getD 0)).sum := by
  intro l
  induction l with
  | nil => rfl
  | cons a l ih =>
      rw [List.filterMap_cons]
      cases hfa : f a <;> simp [hfa, ih]

theorem sum_map_ite_add {β : Type} [DecidableEq β] (g : β → Int) (δ : Int)
    (k₀ : β) :
    ∀ ds : List β, ds.Nodup → k₀ ∈ ds →
      (ds.map (fun k => (if k₀ = k then δ else 0) + g k)).sum
        = δ + (ds.map g).sum := by
  intro ds
  induction ds with
  | nil => intro _ h; simp at h
  | cons d ds ih =>
      intro hnd hk
      rcases List.mem_cons.mp hk with h | h
      · subst h
        have hout : k₀ ∉ ds := (List.nodup_cons.mp hnd).1
        have hmap : ds.map (fun k => (if k₀ = k then δ else 0) + g k)
            = ds.map g := by
          apply List.map_congr_left
          intro b hb
          have hbk : k₀ ≠ b := fun hbk => hout (hbk ▸ hb)
          simp [hbk]
        simp only [List.map_cons, List.sum_cons, hmap, if_true, eq_self_iff_true]
        ring
      · have hd : k₀ ≠ d := fun hdk => (List.nodup_cons.mp hnd).1 (hdk ▸ h)
        simp only [List.map_cons, List.sum_cons]
        rw [if_neg hd, ih (List.nodup_cons.mp hnd).2 h]
        ring

theorem sum_partition {α β : Type} [DecidableEq β] (κ : α → Option β)
    (w : α → Int) (ds : List β) (hnd : ds.Nodup) :
    ∀ l : List α, (∀ x ∈ l, ∀ k, κ x = some k → k ∈ ds) →
      (ds.map (fun k => ((l.filter (fun x => κ x == some k)).map w).sum)).sum
        = ((l.filter (fun x => κ x != none)).map w).sum := by
  intro l
  induction l with
  | nil =>
      intro _
      simp only [List.filter_nil, List.map_nil, List.sum_nil]
      induction ds with
      | nil => rfl
      | cons d ds ih => simp [ih]
  | cons x l ih =>
      intro hcov
      have hcov' : ∀ y ∈ l, ∀ k, κ y = some k → k ∈ ds :=
        fun y hy => hcov y (List.mem_cons_of_mem x hy)
      cases hκ : κ x with
      | none =>
          have hmap : ds.map (fun k =>
              (((x :: l).filter (fun y => κ y == some k)).map w).sum)
              = ds.map (fun k =>
                ((l.filter (fun y => κ y == some k)).map w).sum) := by
            apply List.map_congr_left
            intro k _
            rw [List.filter_cons]
            simp [hκ]
          rw [hmap, List.filter_cons]
          simp only [hκ]
          simpa using ih hcov'
      | some k₀ =>
          have hk₀ : k₀ ∈ ds := hcov x (List.mem_cons_self x l) k₀ hκ
          have hmap : ds.map (fun k =>
              (((x :: l).filter (fun y => κ y == some k)).map w).sum)
              = ds.map (fun k => (if k₀ = k then w x else 0) +
                ((l.filter (fun y => κ y == some k)).map w).sum) := by
            apply List.map_congr_left
            intro k _
            rw [List.filter_cons]
            by_cases hkk : k₀ = k
            · subst hkk
              simp [hκ]
            · have : (κ x == some k) = false := by
                rw [hκ]
                simpa using fun hc : k₀ = k => hkk hc
              simp [this, hkk]
          rw [hmap, sum_map_ite_add _ _ _ ds hnd hk₀, ih hcov',
            List.filter_cons]
          simp [hκ]

theorem groupSumsAt_total (t : Table) (gi vi : Nat) :
    ((groupSumsAt t gi vi).map Prod.snd).sum =
      (numsOf ((t.rows.filter (fun r => cellAt gi r != none)).map
        (cellAt vi))).sum := by
  have hw : ∀ rows : List Row, (numsOf (rows.map (cellAt vi))).sum =
      (rows.map (fun r => (numOf (cellAt vi r)).getD 0)).sum := by
    intro rows
    rw [numsOf, List.filterMap_map]
    exact sum_filterMap_getD _ rows
  rw [groupSumsAt, List.map_map]
  have hmap : (firsts (nonMissing (colCells t gi))).map
      (Prod.snd ∘ fun k => (k, (numsOf ((groupRows t gi k).map (cellAt vi))).sum))
      = (firsts (nonMissing (colCells t gi))).map
        (fun k => ((( t.rows.filter (fun r => cellAt gi r == some k)).map
          (fun r => (numOf (cellAt vi r)).getD 0)).sum)) := by
    apply List.map_congr_left
    intro k _
    exact hw (groupRows t gi k)
  rw [hmap, hw]
  apply sum_partition (fun r => cellAt gi r) _ _ (nodup_firsts _)
  intro r hr k hk
  rw [mem_firsts]
  have : some k ∈ colCells t gi := by
    rw [colCells]
    exact hk ▸ List.mem_map_of_mem (cellAt gi) hr
  exact List.mem_filterMap.mpr ⟨some k, this, rfl⟩

/-- Claim C4 (amended): the per-group sums of `GroupAggregate(sum)` add up
to the sum of the non-missing values of V over the rows whose group key is
non-missing; when every row has a non-missing group key, this is the sum of
all non-missing values of V in the Table. -/
theorem groupSums_conservation (t : Table) (g v : String) (gi vi : Nat)
    (hg : colIdx t g = some gi) (hv : colIdx t v = some vi) :
    ∃ gs, groupSums t g v = Except.ok gs ∧
      (gs.map Prod.snd).sum =
        (numsOf ((t.rows.filter (fun r => cellAt gi r != none)).map
          (cellAt vi))).sum ∧
      ((∀ r ∈ t.rows, cellAt gi r ≠ none) →
        (gs.map Prod.snd).sum = (numsOf (colCells t vi)).sum) := by
  refine ⟨groupSumsAt t gi vi, ?_, groupSumsAt_total t gi vi, ?_⟩
  · simp [groupSums, hg, hv]
  · intro hall
    rw [groupSumsAt_total t gi vi]
    have : t.rows.filter (fun r => cellAt gi r != none) = t.rows :=
      List.filter_eq_self.mpr (fun r hr => by simpa using hall r hr)
    rw [this]
    rfl

/-- The claim as stated fails: on a table whose only row has a missing
group key but a present value `5`, the groups sum to `0` while the
non-missing values of V sum to `5`. -/
theorem groupSums_conservation_cex :
    groupSums tMissingKey "g" "v" = Except.ok [] ∧
    (([] : List (Value × Int)).map Prod.snd).sum
      ≠ (numsOf (colCells tMissingKey 1)).sum :=
  ⟨rfl, by decide⟩

/-- Concrete instantiation of `groupSums_conservation` on the sample
table. -/
theorem groupSums_conservation_witness :
    (colIdx sampleT "state" = some 0 ∧ colIdx sampleT "totalprod" = some 2) ∧
    (∃ gs, groupSums sampleT "state" "totalprod" = Except.ok gs ∧
      (gs.map Prod.snd).sum =
        (numsOf ((sampleT.rows.filter (fun r => cellAt 0 r != none)).map
          (cellAt 2))).sum ∧
      ((∀ r ∈ sampleT.rows, cellAt 0 r ≠ none) →
        (gs.map Prod.snd).sum = (numsOf (colCells sampleT 2)).sum)) :=
  ⟨⟨by decide, by decide⟩,
    groupSums_conservation sampleT "state" "totalprod" 0 2
      (by decide) (by decide)⟩

/-- Claim C10: `GroupAggregate` silently omits rows whose group key is
missing — such a row belongs to no group, and the conservation total of
the per-group sums ranges only over the rows with a non-missing group
key. -/
theorem groupSums_drops_missing_keys (t : Table) (g v : String) (gi vi : Nat)
    (hg : colIdx t g = some gi) (hv : colIdx t v = some vi) :
    ∃ gs, groupSums t g v = Except.ok gs ∧
      (∀ r ∈ t.rows, cellAt gi r = none → ∀ k : Value,
        r ∉ groupRows t gi k) ∧
      (gs.map Prod.snd).sum =
        (numsOf ((t.rows.filter (fun r => cellAt gi r != none)).map
          (cellAt vi))).sum := by
  refine ⟨groupSumsAt t gi vi, ?_, ?_, groupSumsAt_total t gi vi⟩
  · simp [groupSums, hg, hv]
  · intro r _ hnone k hmem
    have := (List.mem_filter.mp hmem).2
    rw [hnone] at this
    simp at this

/-- Concrete instantiation of `groupSums_drops_missing_keys` on the table
with a missing group key. -/
theorem groupSums_drops_missing_keys_witness :
    (colIdx tMissingKey "g" = some 0 ∧ colIdx tMissingKey "v" = some 1) ∧
    (∃ gs, groupSums tMissingKey "g" "v" = Except.ok gs ∧
      (∀ r ∈ tMissingKey.rows, cellAt 0 r = none → ∀ k : Value,
        r ∉ groupRows tMissingKey 0 k) ∧
      (gs.map Prod.snd).sum =
        (numsOf ((tMissingKey.rows.filter (fun r => cellAt 0 r != none)).map
          (cellAt 1))).sum) :=
  ⟨⟨by decide, by decide⟩,
    groupSums_drops_missing_keys tMissingKey "g" "v" 0 1
      (by decide) (by decide)⟩

theorem runSection1_data (s : ScriptState) : (runSection1 s).data = s.data := by
  unfold runSection1
  split <;> rfl

theorem runSection2a_data (s : ScriptState) :
    (runSection2a s).data = s.data := by
  unfold runSection2a
  split <;> rfl

theorem runSection2b_data (s : ScriptState) :
    (runSection2b s).data = s.data := by
  unfold runSection2b
  split <;> rfl

theorem runSection2_data (s : ScriptState) : (runSection2 s).data = s.data :=
  (runSection2b_data _).trans (runSection2a_data s)

theorem runSection3_data (s : ScriptState) : (runSection3 s).data = s.data := by
  unfold runSection3
  split
  · split <;> rfl
  · rfl

theorem runSection4_data (s : ScriptState) : (runSection4 s).data = s.data := by
  unfold runSection4
  split <;> rfl

theorem runSection5_data (s : ScriptState) : (runSection5 s).data = s.data := by
  unfold runSection5
  split <;> rfl

theorem runSection6_data (s : ScriptState) : (runSection6 s).data = s.data := by
  unfold runSection6
  split <;> rfl

/-- Claim C9: no analysis step of the script mutates the loaded Table:
after the whole run — statistics, filters, grouping, sorting, counting,
question answering, summary — the dataset held in the script state is the
original table, every result having been appended to the report as a new
derived value. -/
theorem runScript_preserves_data (t : Table) : (runScript t).data = t := by
  unfold runScript runSummary
  rw [runSection6_data, runSection5_data, runSection4_data, runSection3_data,
    runSection2_data, runSection1_data]

/-- Claim C7, evaluated at the failing input: on a table without a
"totalprod" column the guarded sections skip silently (here section 1
leaves the state unchanged), while the unguarded final summary fails with
the library's low-level `KeyError` instead of `ColumnNotFoundError`. -/
theorem summarySection_unguarded_keyError :
    summarySection tNoProd = Except.error (PdErr.keyError "totalprod") ∧
    runSection1 ⟨tNoProd, []⟩ = ⟨tNoProd, []⟩ ∧
    (runScript tNoProd).outputs =
      [Output.summary (Except.error (PdErr.keyError "totalprod"))] :=
  ⟨rfl, rfl, rfl⟩

/-- Concrete instantiation of `valueCounts_spec` on the sample table's
"state" column. -/
theorem valueCounts_spec_witness :
    colIdx sampleT "state" = some 0 ∧
    (∃ m : List (Value × Nat),
      valueCounts sampleT "state" = Except.ok m ∧
      (∀ v n, ((v, n) ∈ m) ↔ (v ∈ nonMissing (colCells sampleT 0) ∧
          n = (nonMissing (colCells sampleT 0)).count v)) ∧
      m.Pairwise (fun p q => q.2 ≤ p.2) ∧
      (∀ v₁ v₂ : Value, v₁ ≠ v₂ →
        v₁ ∈ nonMissing (colCells sampleT 0) →
        v₂ ∈ nonMissing (colCells sampleT 0) →
        (nonMissing (colCells sampleT 0)).count v₁ =
          (nonMissing (colCells sampleT 0)).count v₂ →
        ([(v₁, (nonMissing (colCells sampleT 0)).count v₁),
          (v₂, (nonMissing (colCells sampleT 0)).count v₂)].Sublist m ↔
          (nonMissing (colCells sampleT 0)).indexOf v₁ <
            (nonMissing (colCells sampleT 0)).indexOf v₂)) ∧
      (m.map Prod.snd).sum = (nonMissing (colCells sampleT 0)).length) :=
  ⟨by decide, valueCounts_spec sampleT "state" 0 (by decide)⟩

end HoneyAnalysis
